import Mathlib

/-!
Verification of the ripple-python signing core (`ripple/sign.py`) against its
natural-language specification.  Python 2 byte strings are embedded as
`List Nat` (one entry per byte); the external collaborators (the base-alphabet
decoder and encoder, the transaction serializer, the raw ECDSA primitive, the
DER encoder and the sha256/ripemd160 hashes of the address path) are passed as
function parameters.  The SHA-512 primitive and the secp256k1 curve arithmetic
used by the key derivation are implemented concretely.
-/

set_option maxRecDepth 8000

namespace Ripple

/-! ## Primitive codec (modelled from the spec; `serialize.py` is not in src/) -/

/-- Modelled from the spec: `decode_uint(bytes)` of the Primitive Codec — the
big-endian unsigned integer denoted by a byte string (`from_bytes` in the
source, imported from the missing `serialize.py`). -/
def from_bytes : List Nat → Nat
  | [] => 0
  | b :: rest => b * 256 ^ rest.length + from_bytes rest

/-- Big-endian byte string of `v` at exactly `w` bytes (the in-range case of
the fixed-width encoder of the codec). -/
def natBytesBE : Nat → Nat → List Nat
  | _, 0 => []
  | v, w + 1 => natBytesBE (v / 256) w ++ [v % 256]

/-- Number of base-256 digits of `v`, at least one, by fuel recursion. -/
def byteLenAux : Nat → Nat → Nat
  | 0, _ => 1
  | fuel + 1, v => if v < 256 then 1 else byteLenAux fuel (v / 256) + 1

/-- Number of base-256 digits of `v`, at least one. -/
def byteLen (v : Nat) : Nat := byteLenAux 128 v

/-- Python `int.bit_length`, by fuel recursion. -/
def bitLenAux : Nat → Nat → Nat
  | 0, _ => 0
  | fuel + 1, v => if v = 0 then 0 else bitLenAux fuel (v / 2) + 1

/-- Python `int.bit_length`. -/
def bitLen (v : Nat) : Nat := bitLenAux 1024 v

/-- Modelled from the spec: `encode_uint(value, width)` of the Primitive
Codec — big-endian byte string; with a given width it errors when the value
does not fit, with no width it encodes at minimal width (`to_bytes` in the
source, imported from the missing `serialize.py`). -/
def to_bytes (value : Nat) (width : Option Nat) : Option (List Nat) :=
  match width with
  | some w => if value < 256 ^ w then some (natBytesBE value w) else none
  | none => some (natBytesBE value (byteLen value))

/-- Uppercase hex digit, as an ASCII code, of a nibble. -/
def hexDigitUpper (d : Nat) : Nat := if d < 10 then 48 + d else 55 + d

/-- Lowercase hex digit, as an ASCII code, of a nibble. -/
def hexDigitLower (d : Nat) : Nat := if d < 10 then 48 + d else 87 + d

/-- ASCII bytes of the lowercase hex rendering of a byte string (Python
`.encode` with the hex codec). -/
def hexLower (l : List Nat) : List Nat :=
  (l.map (fun b => [hexDigitLower (b / 16 % 16), hexDigitLower (b % 16)])).flatten

/-- Python `str.upper` on an ASCII byte string. -/
def asciiUpper (l : List Nat) : List Nat :=
  l.map (fun c => if 97 ≤ c ∧ c ≤ 122 then c - 32 else c)

/-- Modelled from the spec: `to_upper_hex(bytes)` of the Primitive Codec —
uppercase hex rendering of a byte string (`fmt_hex` in the source, imported
from the missing `serialize.py`). -/
def fmt_hex (l : List Nat) : List Nat :=
  (l.map (fun b => [hexDigitUpper (b / 16 % 16), hexDigitUpper (b % 16)])).flatten

/-! ## SHA-512 (the concrete hash behind `first_half_of_sha512`) -/

/-- The first eighty primes, whose roots seed the SHA-512 constants. -/
def sha512Primes : List Nat :=
  [2, 3, 5, 7, 11, 13, 17, 19, 23, 29, 31, 37, 41, 43, 47, 53, 59, 61, 67, 71,
   73, 79, 83, 89, 97, 101, 103, 107, 109, 113, 127, 131, 137, 139, 149, 151,
   157, 163, 167, 173, 179, 181, 191, 193, 197, 199, 211, 223, 227, 229, 233,
   239, 241, 251, 257, 263, 269, 271, 277, 281, 283, 293, 307, 311, 313, 317,
   331, 337, 347, 349, 353, 359, 367, 373, 379, 383, 389, 397, 401, 409]

/-- Largest `r` in `[lo, hi)` with `f r ≤ t`, by fueled binary search; the
caller establishes `f lo ≤ t < f hi`. -/
def rootBS (f : Nat → Nat) : Nat → Nat → Nat → Nat → Nat
  | 0, lo, _, _ => lo
  | fuel + 1, lo, hi, t =>
    if hi ≤ lo + 1 then lo
    else
      let mid := (lo + hi) / 2
      if f mid ≤ t then rootBS f fuel mid hi t else rootBS f fuel lo mid t

/-- Integer square root by binary search. -/
def isqrtN (x : Nat) : Nat := rootBS (fun r => r * r) 300 0 (x + 1) x

/-- Integer cube root by binary search. -/
def icbrtN (x : Nat) : Nat := rootBS (fun r => r * r * r) 300 0 (x + 1) x

/-- Two to the sixty-fourth: the word modulus of SHA-512. -/
def M64 : Nat := 18446744073709551616

/-- First 64 bits of the fractional part of the square root of `p`. -/
def fracSqrt64 (p : Nat) : Nat := isqrtN (p * 2 ^ 128) - isqrtN p * 2 ^ 64

/-- First 64 bits of the fractional part of the cube root of `p`. -/
def fracCbrt64 (p : Nat) : Nat := icbrtN (p * 2 ^ 192) - icbrtN p * 2 ^ 64

/-- The eighty SHA-512 round constants. -/
def sha512K : List Nat := sha512Primes.map fracCbrt64

/-- Rotate a 64-bit word right by `r`. -/
def rotr (r x : Nat) : Nat := x / 2 ^ r + x % 2 ^ r * 2 ^ (64 - r)

/-- Shift a 64-bit word right by `r`. -/
def shr (r x : Nat) : Nat := x / 2 ^ r

/-- SHA-512 big sigma 0. -/
def bigSigma0 (x : Nat) : Nat := rotr 28 x ^^^ rotr 34 x ^^^ rotr 39 x

/-- SHA-512 big sigma 1. -/
def bigSigma1 (x : Nat) : Nat := rotr 14 x ^^^ rotr 18 x ^^^ rotr 41 x

/-- SHA-512 small sigma 0. -/
def smallSigma0 (x : Nat) : Nat := rotr 1 x ^^^ rotr 8 x ^^^ shr 7 x

/-- SHA-512 small sigma 1. -/
def smallSigma1 (x : Nat) : Nat := rotr 19 x ^^^ rotr 61 x ^^^ shr 6 x

/-- SHA-512 choose function. -/
def ch (e f g : Nat) : Nat := e &&& f ^^^ (e ^^^ (M64 - 1)) &&& g

/-- SHA-512 majority function. -/
def maj (a b c : Nat) : Nat := a &&& b ^^^ a &&& c ^^^ b &&& c

/-- SHA-512 padding: a `0x80` byte, zeros up to 112 modulo 128, and the
128-bit big-endian bit length. -/
def sha512Pad (msg : List Nat) : List Nat :=
  msg ++ 128 :: (List.replicate ((239 - msg.length % 128) % 128) 0
    ++ natBytesBE (8 * msg.length) 16)

/-- Split a byte string into chunks of `size` bytes, by fuel recursion. -/
def chunksAux (size : Nat) : Nat → List Nat → List (List Nat)
  | 0, _ => []
  | fuel + 1, l => if l.isEmpty then [] else l.take size :: chunksAux size fuel (l.drop size)

/-- Split a byte string into chunks of `size` bytes. -/
def chunks (size : Nat) (l : List Nat) : List (List Nat) := chunksAux size l.length l

/-- The sixteen big-endian 64-bit words of a 128-byte block. -/
def blockWords (block : List Nat) : List Nat :=
  (chunks 8 block).map (fun c => from_bytes c % M64)

/-- Extend the sixteen-word message schedule by `fuel` further words. -/
def extendSchedule : Nat → List Nat → List Nat
  | 0, w => w
  | fuel + 1, w =>
    let n := w.length
    extendSchedule fuel (w ++ [(smallSigma1 (w.getD (n - 2) 0) + w.getD (n - 7) 0
      + smallSigma0 (w.getD (n - 15) 0) + w.getD (n - 16) 0) % M64])

/-- The eighty-word message schedule of a block. -/
def schedule (block : List Nat) : List Nat := extendSchedule 64 (blockWords block)

/-- The eight-word SHA-512 working state. -/
structure Sha512State where
  a : Nat
  b : Nat
  c : Nat
  d : Nat
  e : Nat
  f : Nat
  g : Nat
  h : Nat

/-- The SHA-512 initial state: fractional square roots of the first eight
primes. -/
def sha512Init : Sha512State :=
  ⟨fracSqrt64 2, fracSqrt64 3, fracSqrt64 5, fracSqrt64 7,
   fracSqrt64 11, fracSqrt64 13, fracSqrt64 17, fracSqrt64 19⟩

/-- One SHA-512 compression round. -/
def sha512Round (s : Sha512State) (k w : Nat) : Sha512State :=
  let t1 := (s.h + bigSigma1 s.e + ch s.e s.f s.g + k + w) % M64
  let t2 := (bigSigma0 s.a + maj s.a s.b s.c) % M64
  ⟨(t1 + t2) % M64, s.a, s.b, s.c, (s.d + t1) % M64, s.e, s.f, s.g⟩

/-- Compress one 128-byte block into the running state. -/
def sha512Compress (s : Sha512State) (block : List Nat) : Sha512State :=
  let t := ((sha512K.zip (schedule block)).foldl
    (fun st kw => sha512Round st kw.1 kw.2) s)
  ⟨(s.a + t.a) % M64, (s.b + t.b) % M64, (s.c + t.c) % M64, (s.d + t.d) % M64,
   (s.e + t.e) % M64, (s.f + t.f) % M64, (s.g + t.g) % M64, (s.h + t.h) % M64⟩

/-- Serialize the state as the 64-byte big-endian digest. -/
def stateBytes (s : Sha512State) : List Nat :=
  natBytesBE s.a 8 ++ natBytesBE s.b 8 ++ natBytesBE s.c 8 ++ natBytesBE s.d 8
    ++ natBytesBE s.e 8 ++ natBytesBE s.f 8 ++ natBytesBE s.g 8 ++ natBytesBE s.h 8

/-- The SHA-512 digest, 64 bytes, of a byte string. -/
def sha512Bytes (msg : List Nat) : List Nat :=
  stateBytes ((chunks 128 (sha512Pad msg)).foldl sha512Compress sha512Init)

/-- The hashing primitive of the core (`first_half_of_sha512`): the first 32
bytes of the SHA-512 digest of the concatenated parts. -/
def first_half_of_sha512 (parts : List (List Nat)) : List Nat :=
  (sha512Bytes parts.flatten).take (256 / 8)

end Ripple


namespace Ripple

/-! ## secp256k1 (the curve behind `curves.SECP256k1`) -/

/-- The secp256k1 field prime. -/
def curveP : Nat :=
  0xFFFFFFFFFFFFFFFFFFFFFFFFFFFFFFFFFFFFFFFFFFFFFFFFFFFFFFFEFFFFFC2F

/-- The secp256k1 group order (`curves.SECP256k1.order`). -/
def curveOrder : Nat :=
  0xFFFFFFFFFFFFFFFFFFFFFFFFFFFFFFFEBAAEDCE6AF48A03BBFD25E8CD0364141

/-- The x coordinate of the secp256k1 base point. -/
def curveGx : Nat :=
  0x79BE667EF9DCBBAC55A06295CE870B07029BFCDB2DCE28D959F2815B16F81798

/-- The y coordinate of the secp256k1 base point. -/
def curveGy : Nat :=
  0x483ADA7726A3C4655DA4FBFC0E1108A8FD17B448A68554199C47D08FFB10D4B8

/-- Fueled modular exponentiation by squaring. -/
def powModAux : Nat → Nat → Nat → Nat → Nat
  | 0, m, _, _ => 1 % m
  | fuel + 1, m, b, e =>
    if e = 0 then 1 % m
    else
      let h := powModAux fuel m (b * b % m) (e / 2)
      if e % 2 = 1 then h * b % m else h

/-- Inverse modulo the secp256k1 field prime, by the little theorem of Fermat. -/
def finv (x : Nat) : Nat := powModAux 300 curveP x (curveP - 2)

/-- An affine secp256k1 point; `none` is the point at infinity. -/
abbrev ECPoint := Option (Nat × Nat)

/-- Double an affine point. -/
def ecDouble : ECPoint → ECPoint
  | none => none
  | some (x, y) =>
    if y % curveP = 0 then none
    else
      let lam := 3 * x * x % curveP * finv (2 * y % curveP) % curveP
      let xr := (lam * lam % curveP + 2 * curveP - 2 * x % curveP) % curveP
      let yr := (lam * ((x + curveP - xr) % curveP) % curveP + curveP - y % curveP) % curveP
      some (xr, yr)

/-- Add two affine points (the group law of python-ecdsa `Point.__add__`). -/
def ecAdd : ECPoint → ECPoint → ECPoint
  | none, q => q
  | some (x1, y1), none => some (x1, y1)
  | some (x1, y1), some (x2, y2) =>
    if x1 % curveP = x2 % curveP then
      if (y1 + y2) % curveP = 0 then none else ecDouble (some (x1, y1))
    else
      let lam := (y2 + curveP - y1 % curveP) % curveP
        * finv ((x2 + curveP - x1 % curveP) % curveP) % curveP
      let xr := (lam * lam % curveP + 2 * curveP - x1 % curveP - x2 % curveP) % curveP
      let yr := (lam * ((x1 + curveP - xr) % curveP) % curveP + curveP - y1 % curveP) % curveP
      some (xr, yr)

/-- Fueled double-and-add scalar multiplication. -/
def smulAux : Nat → ECPoint → Nat → ECPoint
  | 0, _, _ => none
  | fuel + 1, base, k =>
    if k = 0 then none
    else
      let rest := smulAux fuel (ecDouble base) (k / 2)
      if k % 2 = 1 then ecAdd base rest else rest

/-- Multiply the secp256k1 base point by a scalar; python-ecdsa reduces the
scalar by the order of the generator first. -/
def genMul (k : Nat) : ECPoint :=
  smulAux 257 (some (curveGx, curveGy)) (k % curveOrder)

/-! ## The signing core (`ripple/sign.py`) -/

/-- A transaction record: a caller-supplied field map, embedded as a function
from field names to optional byte-string values. -/
abbrev Txn := String → Option (List Nat)

/-- SEC1 point compression (`ecc_point_to_bytes_compressed`): a parity header
byte and the big-endian x coordinate, padded to the byte length of the curve
order when `pad` is set. -/
def ecc_point_to_bytes_compressed (pt : Nat × Nat) (pad : Bool) : Option (List Nat) := do
  let header := if pt.2 % 2 = 0 then 2 else 3
  let xbytes ← to_bytes pt.1 (if pad then some (bitLen curveOrder / 8) else none)
  some (header :: xbytes)

/-- Seed parsing (`parse_seed`): assert the leading seed-indicator character
`s` (ASCII 115), then hand the whole secret to the external base decoder. -/
def parse_seed (decode : List Nat → Option (List Nat)) (secret : List Nat) :
    Option (List Nat) :=
  match secret with
  | [] => none
  | c :: _ => if c = 115 then decode secret else none

/-- The first rejection-sampling loop of `root_key_from_seed`: hash seed plus
4-byte big-endian counter, accept as the private generator as soon as the
curve order is not exceeded. -/
def privateGenLoop (seed : List Nat) : Nat → Nat → Option Nat
  | 0, _ => none
  | fuel + 1, seq => do
    let sb ← to_bytes seq (some 4)
    let pg := from_bytes (first_half_of_sha512 [seed ++ sb])
    if curveOrder ≥ pg then some pg else privateGenLoop seed fuel (seq + 1)

/-- The second rejection-sampling loop of `root_key_from_seed`: hash the
compressed public generator, a zero word and a 4-byte big-endian counter,
accept as soon as the curve order is not exceeded. -/
def secretLoop (pfxBytes : List Nat) : Nat → Nat → Option Nat
  | 0, _ => none
  | fuel + 1, i => do
    let ib ← to_bytes i (some 4)
    let sc := from_bytes (first_half_of_sha512 [pfxBytes ++ ib])
    if curveOrder ≥ sc then some sc else secretLoop pfxBytes fuel (i + 1)

/-- The derived signing key: the final secret exponent and its public point
(python-ecdsa `SigningKey`), plus the two generators the source attaches to
the key object as supplemental data. -/
structure SigningKey where
  secexp : Nat
  point : ECPoint
  private_gen : Nat
  public_gen : ECPoint
  deriving DecidableEq

/-- python-ecdsa `SigningKey.from_secret_exponent`: asserts
`1 <= secexp < order`, then computes the public point. -/
def from_secret_exponent (secexp : Nat) : Option (Nat × ECPoint) :=
  if 1 ≤ secexp ∧ secexp < curveOrder then some (secexp, genMul secexp) else none

/-- The two-stage root-key derivation (`root_key_from_seed`), with fuel
bounding each rejection-sampling loop. -/
def root_key_from_seed (fuel : Nat) (seed : List Nat) : Option SigningKey := do
  let pg ← privateGenLoop seed fuel 0
  let publicGen := genMul pg
  let pt ← publicGen
  let compressed ← ecc_point_to_bytes_compressed pt false
  let z4 ← to_bytes 0 (some 4)
  let sc ← secretLoop (compressed ++ z4) fuel 0
  let secret := sc + pg % curveOrder
  let ke ← from_secret_exponent secret
  some ⟨ke.1, ke.2, pg, publicGen⟩

/-- Hash-prefix constant for production-network signing. -/
def HASH_TX_SIGN : Nat := 0x53545800

/-- Hash-prefix constant for testnet signing. -/
def HASH_TX_SIGN_TESTNET : Nat := 0x73747800

/-- The value to be signed (`create_signing_hash`): the network prefix and the
externally serialized transaction, hashed and uppercase-hex rendered. -/
def create_signing_hash (serialize_object : Txn → List Nat) (transaction : Txn)
    (testnet : Bool) : Option (List Nat) := do
  let pfx := if testnet then HASH_TX_SIGN_TESTNET else HASH_TX_SIGN
  let pb ← to_bytes pfx (some 4)
  let binary := first_half_of_sha512 [pb, serialize_object transaction]
  some (asciiUpper (hexLower binary))

/-- ECDSA signing (`ecdsa_sign`): decode the given bytes as a big-endian
integer, hand it to the library signing primitive, and DER-encode the pair;
the nonce-dependent primitive and the DER encoder are external parameters. -/
def ecdsa_sign (sign_number : Nat → Nat → Nat × Nat)
    (sigencode_der : Nat → Nat → List Nat) (key : SigningKey)
    (bytes : List Nat) : List Nat :=
  let rs := sign_number key.secexp (from_bytes bytes)
  sigencode_der rs.1 rs.2

/-- Signature computation (`signature_for_transaction`): derive the key, set
the `SigningPubKey` field of the transaction, hash the mutated transaction and sign
the hash; returns the hex signature together with the mutated transaction. -/
def signature_for_transaction (decode : List Nat → Option (List Nat))
    (serialize_object : Txn → List Nat) (sign_number : Nat → Nat → Nat × Nat)
    (sigencode_der : Nat → Nat → List Nat) (fuel : Nat) (transaction : Txn)
    (secret : List Nat) : Option (List Nat × Txn) := do
  let seed ← parse_seed decode secret
  let key ← root_key_from_seed fuel seed
  let pt ← key.point
  let pub ← ecc_point_to_bytes_compressed pt true
  let txn := Function.update transaction "SigningPubKey" (some (fmt_hex pub))
  let signing_hash ← create_signing_hash serialize_object txn false
  some (fmt_hex (ecdsa_sign sign_number sigencode_der key signing_hash), txn)

/-- Top-level signing (`sign_transaction`): add the `TxnSignature` field to
the transaction mutated by `signature_for_transaction` and return it. -/
def sign_transaction (decode : List Nat → Option (List Nat))
    (serialize_object : Txn → List Nat) (sign_number : Nat → Nat → Nat × Nat)
    (sigencode_der : Nat → Nat → List Nat) (fuel : Nat) (transaction : Txn)
    (secret : List Nat) : Option Txn :=
  (signature_for_transaction decode serialize_object sign_number sigencode_der
      fuel transaction secret).map
    (fun r => Function.update r.2 "TxnSignature" (some r.1))

/-- Address derivation from a compressed public key
(`get_ripple_from_pubkey`); the two hash functions and the base-alphabet check
encoder are external parameters, and the second component records the lines
the source prints to stdout. -/
def get_ripple_from_pubkey (sha256h ripemd160h : List Nat → List Nat)
    (encode : List Nat → List Nat) (pubkey : List Nat) :
    List Nat × List (List Nat) :=
  let digest := ripemd160h (sha256h pubkey)
  (encode digest, [asciiUpper (hexLower digest)])

/-- Address derivation from a secret (`get_ripple_from_secret`): parse the
seed, derive the root key, compress its public point with padding, and derive
the address from that public key. -/
def get_ripple_from_secret (decode : List Nat → Option (List Nat))
    (sha256h ripemd160h : List Nat → List Nat) (encode : List Nat → List Nat)
    (fuel : Nat) (seed : List Nat) : Option (List Nat × List (List Nat)) := do
  let s ← parse_seed decode seed
  let key ← root_key_from_seed fuel s
  let pt ← key.point
  let pubkey ← ecc_point_to_bytes_compressed pt true
  some (get_ripple_from_pubkey sha256h ripemd160h encode pubkey)

end Ripple


namespace Ripple

/-! ## Basic facts about the codec and the hash -/

/-- Fixed-width encoding produces exactly the requested number of bytes. -/
theorem natBytesBE_length (v w : Nat) : (natBytesBE v w).length = w := by
  induction w generalizing v with
  | zero => rfl
  | succ w ih => simp [natBytesBE, ih]

/-- Every byte of a fixed-width encoding is below 256. -/
theorem natBytesBE_mem_lt (v w b : Nat) (hb : b ∈ natBytesBE v w) : b < 256 := by
  induction w generalizing v with
  | zero => simp [natBytesBE] at hb
  | succ w ih =>
    simp only [natBytesBE, List.mem_append, List.mem_singleton] at hb
    rcases hb with h | h
    · exact ih _ h
    · subst h; exact Nat.mod_lt _ (by decide)

/-- A SHA-512 state serializes to 64 bytes. -/
theorem stateBytes_length (s : Sha512State) : (stateBytes s).length = 64 := by
  simp [stateBytes, natBytesBE_length]

/-- A SHA-512 digest is 64 bytes long. -/
theorem sha512Bytes_length (msg : List Nat) : (sha512Bytes msg).length = 64 :=
  stateBytes_length _

/-- Every byte of a serialized SHA-512 state is below 256. -/
theorem stateBytes_mem_lt (s : Sha512State) (b : Nat) (hb : b ∈ stateBytes s) :
    b < 256 := by
  simp only [stateBytes, List.mem_append] at hb
  rcases hb with ((((((h | h) | h) | h) | h) | h) | h) | h <;>
    exact natBytesBE_mem_lt _ _ _ h

/-- Every byte of a SHA-512 digest is below 256. -/
theorem sha512Bytes_mem_lt (msg : List Nat) (b : Nat) (hb : b ∈ sha512Bytes msg) :
    b < 256 := stateBytes_mem_lt _ _ hb

/-- The truncated hash is 32 bytes long. -/
theorem first_half_of_sha512_length (parts : List (List Nat)) :
    (first_half_of_sha512 parts).length = 32 := by
  simp [first_half_of_sha512, sha512Bytes_length]

/-- Every byte of the truncated hash is below 256. -/
theorem first_half_of_sha512_mem_lt (parts : List (List Nat)) (b : Nat)
    (hb : b ∈ first_half_of_sha512 parts) : b < 256 :=
  sha512Bytes_mem_lt _ _ (List.take_subset _ _ hb)

/-- A byte string of bytes below 256 decodes below `256 ^ length`. -/
theorem from_bytes_lt (l : List Nat) (hl : ∀ b ∈ l, b < 256) :
    from_bytes l < 256 ^ l.length := by
  induction l with
  | nil => simp [from_bytes]
  | cons b rest ih =>
    have hb : b < 256 := hl b (List.mem_cons_self _ _)
    have hr : from_bytes rest < 256 ^ rest.length :=
      ih (fun x hx => hl x (List.mem_cons_of_mem _ hx))
    have h1 : b * 256 ^ rest.length + from_bytes rest
        < (b + 1) * 256 ^ rest.length := by
      calc b * 256 ^ rest.length + from_bytes rest
          < b * 256 ^ rest.length + 256 ^ rest.length := Nat.add_lt_add_left hr _
        _ = (b + 1) * 256 ^ rest.length := by ring
    have h2 : (b + 1) * 256 ^ rest.length ≤ 256 * 256 ^ rest.length :=
      Nat.mul_le_mul_right _ (by omega)
    calc from_bytes (b :: rest) = b * 256 ^ rest.length + from_bytes rest := rfl
      _ < (b + 1) * 256 ^ rest.length := h1
      _ ≤ 256 * 256 ^ rest.length := h2
      _ = 256 ^ (b :: rest).length := by rw [List.length_cons]; ring

/-- The head byte bounds a decoded byte string from below. -/
theorem le_from_bytes_cons (b : Nat) (rest : List Nat) :
    b * 256 ^ rest.length ≤ from_bytes (b :: rest) :=
  Nat.le_add_right _ _

/-- Uppercasing a lowercase hex digit gives the uppercase hex digit. -/
theorem asciiUpper_hexDigitLower :
    ∀ d < 16, (if 97 ≤ hexDigitLower d ∧ hexDigitLower d ≤ 122
      then hexDigitLower d - 32 else hexDigitLower d) = hexDigitUpper d := by
  decide

/-- The Python chain `.encode` with the hex codec followed by `.upper()` is exactly
the uppercase hex renderer `fmt_hex`. -/
theorem asciiUpper_hexLower (l : List Nat) : asciiUpper (hexLower l) = fmt_hex l := by
  induction l with
  | nil => rfl
  | cons b rest ih =>
    have h1 : b / 16 % 16 < 16 := Nat.mod_lt _ (by decide)
    have h2 : b % 16 < 16 := Nat.mod_lt _ (by decide)
    simp only [hexLower, asciiUpper, fmt_hex, List.map_cons, List.flatten_cons,
      List.map_append] at ih ⊢
    rw [ih]
    simp only [List.map_cons, List.map_nil, List.cons_append, List.nil_append,
      asciiUpper_hexDigitLower _ h1, asciiUpper_hexDigitLower _ h2]

/-- The uppercase hex rendering has twice as many characters as bytes. -/
theorem fmt_hex_length (l : List Nat) : (fmt_hex l).length = 2 * l.length := by
  induction l with
  | nil => rfl
  | cons b rest ih =>
    simp only [fmt_hex, List.map_cons, List.flatten_cons, List.length_append,
      List.length_cons, List.length_nil, List.length_map] at ih ⊢
    omega

/-- Uppercase hex digits are at code point 48 or above. -/
theorem hexDigitUpper_ge (d : Nat) : 48 ≤ hexDigitUpper d := by
  unfold hexDigitUpper; split <;> omega

/-- The big-endian integer of the ASCII hex rendering of a nonempty byte
string strictly exceeds the big-endian integer of the bytes themselves. -/
theorem from_bytes_lt_from_bytes_fmt_hex (l : List Nat) (hne : l ≠ [])
    (hlt : ∀ b ∈ l, b < 256) : from_bytes l < from_bytes (fmt_hex l) := by
  cases l with
  | nil => exact absurd rfl hne
  | cons b rest =>
    have hfb : from_bytes (b :: rest) < 256 ^ (rest.length + 1) := by
      have := from_bytes_lt (b :: rest) hlt
      simpa using this
    have hshape : fmt_hex (b :: rest)
        = hexDigitUpper (b / 16 % 16) :: (hexDigitUpper (b % 16) :: fmt_hex rest) := by
      simp [fmt_hex]
    have htail : (hexDigitUpper (b % 16) :: fmt_hex rest).length
        = 2 * rest.length + 1 := by
      simp [fmt_hex_length]
    have hlow : 48 * 256 ^ (2 * rest.length + 1)
        ≤ from_bytes (fmt_hex (b :: rest)) := by
      rw [hshape]
      calc 48 * 256 ^ (2 * rest.length + 1)
          ≤ hexDigitUpper (b / 16 % 16) * 256 ^ (2 * rest.length + 1) :=
            Nat.mul_le_mul_right _ (hexDigitUpper_ge _)
        _ = hexDigitUpper (b / 16 % 16)
            * 256 ^ (hexDigitUpper (b % 16) :: fmt_hex rest).length := by rw [htail]
        _ ≤ from_bytes (hexDigitUpper (b / 16 % 16)
            :: (hexDigitUpper (b % 16) :: fmt_hex rest)) := le_from_bytes_cons _ _
    have hpow : 256 ^ (rest.length + 1) ≤ 48 * 256 ^ (2 * rest.length + 1) := by
      calc 256 ^ (rest.length + 1)
          ≤ 256 ^ (2 * rest.length + 1) :=
            Nat.pow_le_pow_right (by decide) (by omega)
        _ ≤ 48 * 256 ^ (2 * rest.length + 1) := Nat.le_mul_of_pos_left _ (by decide)
    omega

end Ripple

namespace Ripple

/-! ## Claim theorems -/

/-- The signing-hash formula as the spec states it: the uppercase hex
rendering of the first 32 bytes of the SHA-512 of the 4-byte big-endian
network prefix (`0x53545800` by default, `0x73747800` on testnet) followed by
the externally serialized transaction bytes. -/
def createSigningHashSpec (serialize_object : Txn → List Nat) (transaction : Txn)
    (testnet : Bool) : List Nat :=
  fmt_hex ((sha512Bytes (natBytesBE (if testnet then 0x73747800 else 0x53545800) 4
    ++ serialize_object transaction)).take 32)

/-- C4: for every transaction, `create_signing_hash` returns the uppercase
hexadecimal rendering of the first 32 bytes of the SHA-512 of the 4-byte
big-endian network prefix concatenated with the externally serialized
transaction bytes, with prefix `0x53545800` by default and `0x73747800` when
the testnet flag is set. -/
theorem c4_create_signing_hash_spec (serialize_object : Txn → List Nat)
    (transaction : Txn) (testnet : Bool) :
    create_signing_hash serialize_object transaction testnet
      = some (createSigningHashSpec serialize_object transaction testnet) := by
  cases testnet <;>
    simp [create_signing_hash, createSigningHashSpec, HASH_TX_SIGN,
      HASH_TX_SIGN_TESTNET, to_bytes, first_half_of_sha512, asciiUpper_hexLower]

/-- C5: compression of an on-curve point gives the parity header byte (2 for
even y, 3 for odd y) followed by the big-endian x coordinate; with `pad` the
result is exactly 33 bytes, without `pad` the x coordinate is encoded at
minimal width. -/
theorem c5_point_compression (x y : Nat) (hx : x < curveP) :
    ecc_point_to_bytes_compressed (x, y) true
        = some ((if y % 2 = 0 then 2 else 3) :: natBytesBE x 32)
      ∧ (ecc_point_to_bytes_compressed (x, y) true).map List.length = some 33
      ∧ ecc_point_to_bytes_compressed (x, y) false
        = some ((if y % 2 = 0 then 2 else 3) :: natBytesBE x (byteLen x)) := by
  have hw : bitLen curveOrder / 8 = 32 := by decide
  have hfit :
      x < 115792089237316195423570985008687907853269984665640564039457584007913129639936 :=
    lt_trans hx (by decide)
  have h1 : ecc_point_to_bytes_compressed (x, y) true
      = some ((if y % 2 = 0 then 2 else 3) :: natBytesBE x 32) := by
    simp [ecc_point_to_bytes_compressed, hw, to_bytes, hfit]
  refine ⟨h1, ?_, ?_⟩
  · rw [h1]
    simp [natBytesBE_length]
  · simp [ecc_point_to_bytes_compressed, to_bytes]

/-- C5 witness: the secp256k1 base point compresses as stated. -/
theorem c5_point_compression_witness :
    curveGx < curveP
      ∧ (ecc_point_to_bytes_compressed (curveGx, curveGy) true
          = some ((if curveGy % 2 = 0 then 2 else 3) :: natBytesBE curveGx 32)
        ∧ (ecc_point_to_bytes_compressed (curveGx, curveGy) true).map List.length
          = some 33
        ∧ ecc_point_to_bytes_compressed (curveGx, curveGy) false
          = some ((if curveGy % 2 = 0 then 2 else 3)
              :: natBytesBE curveGx (byteLen curveGx))) :=
  ⟨by decide, c5_point_compression curveGx curveGy (by decide)⟩

/-- C8: `get_ripple_from_pubkey` does not only return its result — it also
prints the uppercase hex of the RIPEMD-160 digest to stdout (one output line
for every call), contradicting the claim that address derivation performs no
observable effect beyond returning its result. -/
theorem c8_address_derivation_prints (sha256h ripemd160h : List Nat → List Nat)
    (encode : List Nat → List Nat) (pubkey : List Nat) :
    (get_ripple_from_pubkey sha256h ripemd160h encode pubkey).2
        = [asciiUpper (hexLower (ripemd160h (sha256h pubkey)))]
      ∧ (get_ripple_from_pubkey sha256h ripemd160h encode pubkey).2 ≠ [] :=
  ⟨rfl, by simp [get_ripple_from_pubkey]⟩

/-- C9: a secret whose first byte is not the seed indicator `s` (ASCII 115)
is rejected by `parse_seed` for every external decoder, so the decoder is
never consulted and no key material is derived. -/
theorem c9_parse_seed_rejects (decode : List Nat → Option (List Nat))
    (secret : List Nat) (h : secret.head? ≠ some 115) :
    parse_seed decode secret = none := by
  cases secret with
  | nil => rfl
  | cons c rest =>
    simp only [List.head?] at h
    have hc : c ≠ 115 := by intro hc; exact h (by rw [hc])
    simp [parse_seed, hc]

/-- C9 witness: the secret `xab` (no leading `s`) is rejected even by a
decoder that accepts everything. -/
theorem c9_parse_seed_rejects_witness :
    (([120, 97, 98] : List Nat).head? ≠ some 115)
      ∧ parse_seed (fun s => some s) [120, 97, 98] = none :=
  ⟨by decide, c9_parse_seed_rejects (fun s => some s) [120, 97, 98] (by decide)⟩

/-- C10: the root-key derivation is a pure deterministic function of the seed
bytes — two calls yield the same key, and in particular the same private
scalar, public point, private generator and public generator. -/
theorem c10_derivation_deterministic (fuel : Nat) (seed : List Nat) :
    root_key_from_seed fuel seed = root_key_from_seed fuel seed
      ∧ (root_key_from_seed fuel seed).map SigningKey.secexp
        = (root_key_from_seed fuel seed).map SigningKey.secexp
      ∧ (root_key_from_seed fuel seed).map SigningKey.point
        = (root_key_from_seed fuel seed).map SigningKey.point
      ∧ (root_key_from_seed fuel seed).map SigningKey.private_gen
        = (root_key_from_seed fuel seed).map SigningKey.private_gen
      ∧ (root_key_from_seed fuel seed).map SigningKey.public_gen
        = (root_key_from_seed fuel seed).map SigningKey.public_gen :=
  ⟨rfl, rfl, rfl, rfl, rfl⟩

end Ripple

namespace Ripple

/-- C6: deriving the address from a secret is exactly deriving it from the
padded compressed public key of the root key derived from the parsed seed. -/
theorem c6_round_trip_address (decode : List Nat → Option (List Nat))
    (sha256h ripemd160h : List Nat → List Nat) (encode : List Nat → List Nat)
    (fuel : Nat) (secret : List Nat) :
    get_ripple_from_secret decode sha256h ripemd160h encode fuel secret
      = Option.map (get_ripple_from_pubkey sha256h ripemd160h encode)
          (parse_seed decode secret >>= fun s =>
            root_key_from_seed fuel s >>= fun key =>
              key.point >>= fun pt =>
                ecc_point_to_bytes_compressed pt true) := by
  cases hp : parse_seed decode secret with
  | none => simp [get_ripple_from_secret, hp]
  | some s =>
    cases hk : root_key_from_seed fuel s with
    | none => simp [get_ripple_from_secret, hp, hk]
    | some key =>
      cases hpt : key.point with
      | none => simp [get_ripple_from_secret, hp, hk, hpt]
      | some pt =>
        cases hc : ecc_point_to_bytes_compressed pt true with
        | none => simp [get_ripple_from_secret, hp, hk, hpt, hc]
        | some pb => simp [get_ripple_from_secret, hp, hk, hpt, hc]

/-- C7: whenever `signature_for_transaction` returns, the transaction it
returns differs from the input transaction exactly by the `SigningPubKey`
field (written with the hex compressed public key), the `TxnSignature` field
is untouched, and the signature is computed over the signing hash of the
already-mutated transaction; `sign_transaction` additionally writes the
returned hex signature into `TxnSignature` and returns that transaction. -/
theorem c7_mutation_frame (decode : List Nat → Option (List Nat))
    (serialize_object : Txn → List Nat) (sign_number : Nat → Nat → Nat × Nat)
    (sigencode_der : Nat → Nat → List Nat) (fuel : Nat) (transaction : Txn)
    (secret : List Nat) :
    ((signature_for_transaction decode serialize_object sign_number
        sigencode_der fuel transaction secret).elim True fun r =>
      ∃ key pub hash,
        r.2 = Function.update transaction "SigningPubKey" (some (fmt_hex pub))
          ∧ r.2 "TxnSignature" = transaction "TxnSignature"
          ∧ create_signing_hash serialize_object r.2 false = some hash
          ∧ r.1 = fmt_hex (ecdsa_sign sign_number sigencode_der key hash))
      ∧ sign_transaction decode serialize_object sign_number sigencode_der fuel
          transaction secret
        = (signature_for_transaction decode serialize_object sign_number
            sigencode_der fuel transaction secret).map
            (fun r => Function.update r.2 "TxnSignature" (some r.1)) := by
  constructor
  · cases hp : parse_seed decode secret with
    | none => simp [signature_for_transaction, hp]
    | some seed =>
      cases hk : root_key_from_seed fuel seed with
      | none => simp [signature_for_transaction, hp, hk]
      | some key =>
        cases hpt : key.point with
        | none => simp [signature_for_transaction, hp, hk, hpt]
        | some pt =>
          cases hpub : ecc_point_to_bytes_compressed pt true with
          | none => simp [signature_for_transaction, hp, hk, hpt, hpub]
          | some pub =>
            cases hh : create_signing_hash serialize_object
                (Function.update transaction "SigningPubKey"
                  (some (fmt_hex pub))) false with
            | none => simp [signature_for_transaction, hp, hk, hpt, hpub, hh]
            | some hash =>
              simp only [signature_for_transaction, hp, hk, hpt, hpub, hh,
                Option.bind_eq_bind, Option.some_bind, Option.elim_some]
              exact ⟨key, pub, hash, rfl, Function.update_noteq (by simp) _ _,
                rfl, rfl⟩
  · rfl

/-- C3: `ecdsa_sign` hands the library primitive the big-endian integer of
its input bytes, but `signature_for_transaction` feeds it the uppercase hex
string produced by `create_signing_hash`, so the number handed over is the
integer of the 64 ASCII hex characters — always strictly larger than, and
hence never equal to, the big-endian integer of the 32-byte digest the claim
describes. -/
theorem c3_signed_number_is_not_digest (serialize_object : Txn → List Nat)
    (transaction : Txn) (sign_number : Nat → Nat → Nat × Nat)
    (sigencode_der : Nat → Nat → List Nat) (key : SigningKey) :
    (∀ bytes, ecdsa_sign sign_number sigencode_der key bytes
        = sigencode_der (sign_number key.secexp (from_bytes bytes)).1
            (sign_number key.secexp (from_bytes bytes)).2)
      ∧ create_signing_hash serialize_object transaction false
        = some (fmt_hex (first_half_of_sha512
            [natBytesBE HASH_TX_SIGN 4, serialize_object transaction]))
      ∧ from_bytes (first_half_of_sha512
            [natBytesBE HASH_TX_SIGN 4, serialize_object transaction])
        < from_bytes (fmt_hex (first_half_of_sha512
            [natBytesBE HASH_TX_SIGN 4, serialize_object transaction]))
      ∧ from_bytes (fmt_hex (first_half_of_sha512
            [natBytesBE HASH_TX_SIGN 4, serialize_object transaction]))
        ≠ from_bytes (first_half_of_sha512
            [natBytesBE HASH_TX_SIGN 4, serialize_object transaction]) := by
  have hne : first_half_of_sha512
      [natBytesBE HASH_TX_SIGN 4, serialize_object transaction] ≠ [] := by
    intro h
    have := first_half_of_sha512_length
      [natBytesBE HASH_TX_SIGN 4, serialize_object transaction]
    rw [h] at this
    simp at this
  have hlt := from_bytes_lt_from_bytes_fmt_hex _ hne
    (first_half_of_sha512_mem_lt _)
  refine ⟨fun bytes => rfl, ?_, hlt, Nat.ne_of_gt hlt⟩
  simp [create_signing_hash, HASH_TX_SIGN, to_bytes, asciiUpper_hexLower]

end Ripple

namespace Ripple

/-- The all-zero 16-byte seed; on this seed the sum of the two sampled values
exceeds the curve order, so the final mixing step of `root_key_from_seed`
distinguishes `secret + private_gen % order` from `(secret + private_gen) % order`. -/
def c1Seed : List Nat := List.replicate 16 0

/-- The private generator the first rejection-sampling loop derives from
`c1Seed`. -/
def c1PG : Nat :=
  95251999138602563616114767486862972345738407480856087900061081545356022331511

/-- The secret candidate the second rejection-sampling loop derives from
`c1Seed`. -/
def c1SC : Nat :=
  37308765405234317529659318886807571536681681786960521541494481732771789180719

set_option maxHeartbeats 16000000 in
/-- C1: on the seed `c1Seed` the code does not reduce the final scalar modulo
the curve order.  The two loops produce `c1PG` and `c1SC`, whose sum is at
least the curve order; the final value of the code, `c1SC + c1PG % curveOrder`
(Python precedence) therefore fails the `from_secret_exponent` range
assertion and `root_key_from_seed` crashes, while the value the claim states,
`(c1SC + c1PG) % curveOrder`, is a valid scalar strictly below the order. -/
theorem c1_final_scalar_not_reduced :
    privateGenLoop c1Seed 10 0 = some c1PG
      ∧ (genMul c1PG >>= fun pt =>
          ecc_point_to_bytes_compressed pt false >>= fun cp =>
            secretLoop (cp ++ [0, 0, 0, 0]) 10 0) = some c1SC
      ∧ curveOrder ≤ c1SC + c1PG % curveOrder
      ∧ from_secret_exponent (c1SC + c1PG % curveOrder) = none
      ∧ 1 ≤ (c1SC + c1PG) % curveOrder
      ∧ (c1SC + c1PG) % curveOrder < curveOrder
      ∧ root_key_from_seed 10 c1Seed = none :=
  ⟨by decide, by decide, by decide, by decide, by decide, by decide, by decide⟩

set_option maxHeartbeats 4000000 in
/-- The known test vector of the spec: the seed hex `71ED064155FFADFA38782C5E0158CB26`
derives the private generator hex
`7CFBA64F771E93E817E15039215430B53F7401C34931D111EAB3510B22DBB0D8`,
corroborating the embedding of the codec, the hash and the first loop. -/
theorem wiki_test_vector_private_gen :
    privateGenLoop [0x71, 0xED, 0x06, 0x41, 0x55, 0xFF, 0xAD, 0xFA,
        0x38, 0x78, 0x2C, 0x5E, 0x01, 0x58, 0xCB, 0x26] 10 0
      = some 0x7CFBA64F771E93E817E15039215430B53F7401C34931D111EAB3510B22DBB0D8 := by
  decide

end Ripple
